import Mathlib

/-!
Verification of the orchestration and aggregation layer of the SepTop
relative binding free-energy protocol
(`openfe/protocols/openmm_septop/equil_septop_method.py`).

The development shallowly embeds the coordination logic:
lambda-schedule validation, execution-unit construction (`_create`),
result gathering (`_gather`), statistical aggregation
(`get_estimate` / `get_uncertainty` / forward-reverse analysis), and the
solvent-leg ligand-offset geometry (`_update_positions`).

Python exceptions are modelled with `Except PyErr`; machine floats are
idealised as rationals (where the code only adds, multiplies and divides)
or reals (where square roots occur); Python dicts are modelled as
insertion-ordered association lists.
-/

/-- The Python exception kinds raised by the embedded code. -/
inductive PyErr where
  | notImplementedError
  | valueError
deriving DecidableEq

/-- The six lambda sequences of `LambdaSettings`
(`equil_septop_settings.LambdaSettings`); float entries idealised as `ℚ`. -/
structure LambdaSettings where
  lambda_elec_ligandA : List ℚ
  lambda_elec_ligandB : List ℚ
  lambda_vdw_ligandA : List ℚ
  lambda_vdw_ligandB : List ℚ
  lambda_restraints_ligandA : List ℚ
  lambda_restraints_ligandB : List ℚ
deriving DecidableEq

/-- The part of `MultiStateSimulationSettings` the validator reads. -/
structure MultiStateSimulationSettings where
  n_replicas : ℕ
deriving DecidableEq

/-- `SepTopProtocol._validate_lambda_schedule`: first all six sequences are
compared against the length of `lambda_vdw_ligandA` (the first entry of the
`lambda_components` list in the source); then `n_replicas` is compared
against `len(lambda_vdw_ligandB)`.  Each failed check raises `ValueError`. -/
def validate_lambda_schedule (ls : LambdaSettings)
    (ss : MultiStateSimulationSettings) : Except PyErr Unit :=
  let the_len := ls.lambda_vdw_ligandA.length
  if ls.lambda_vdw_ligandB.length == the_len
      && ls.lambda_elec_ligandA.length == the_len
      && ls.lambda_elec_ligandB.length == the_len
      && ls.lambda_restraints_ligandA.length == the_len
      && ls.lambda_restraints_ligandB.length == the_len then
    if ss.n_replicas != ls.lambda_vdw_ligandB.length then
      .error .valueError
    else
      .ok ()
  else
    .error .valueError

/-- The settings mapping handed to `_get_lambda_schedule`; only the
`lambda_settings` entry is read by either implementation. -/
structure SettingsDict where
  lambda_settings : LambdaSettings
deriving DecidableEq

/-- `SepTopSolventRunUnit._get_lambda_schedule`: an insertion-ordered dict
with the four non-restraint lambda dimensions. -/
def solventRun_get_lambda_schedule (s : SettingsDict) :
    List (String × List ℚ) :=
  [("lambda_electrostatics_ligandA", s.lambda_settings.lambda_elec_ligandA),
   ("lambda_sterics_ligandA", s.lambda_settings.lambda_vdw_ligandA),
   ("lambda_electrostatics_ligandB", s.lambda_settings.lambda_elec_ligandB),
   ("lambda_sterics_ligandB", s.lambda_settings.lambda_vdw_ligandB)]

/-- `SepTopComplexRunUnit._get_lambda_schedule`: the same four dimensions
plus the two restraint dimensions, in source insertion order. -/
def complexRun_get_lambda_schedule (s : SettingsDict) :
    List (String × List ℚ) :=
  [("lambda_electrostatics_ligandA", s.lambda_settings.lambda_elec_ligandA),
   ("lambda_sterics_ligandA", s.lambda_settings.lambda_vdw_ligandA),
   ("lambda_restraints_ligandA", s.lambda_settings.lambda_restraints_ligandA),
   ("lambda_electrostatics_ligandB", s.lambda_settings.lambda_elec_ligandB),
   ("lambda_sterics_ligandB", s.lambda_settings.lambda_vdw_ligandB),
   ("lambda_restraints_ligandB", s.lambda_settings.lambda_restraints_ligandB)]

/-! ### Quantities with units

`openff.units` quantities are modelled as a rational magnitude together
with a unit, a unit being its positive conversion factor to a fixed base
unit.  `q.to(u).m` multiplies by the ratio of the factors; quantity
subtraction and addition follow the pint convention of converting the
right operand to the left operand's unit. -/

/-- A physical unit, identified with its positive conversion factor to the
base unit of its dimension. -/
def FEUnit := {q : ℚ // 0 < q}

instance : DecidableEq FEUnit := Subtype.instDecidableEq

/-- A unit-carrying quantity (`openff.units.Quantity`). -/
structure Quantity where
  m : ℚ
  u : FEUnit
deriving DecidableEq

/-- `q.to(u).m`: the magnitude of `q` expressed in unit `u`. -/
def Quantity.toUnit (q : Quantity) (u : FEUnit) : ℚ :=
  q.m * q.u.val / u.val

/-- Pint subtraction `a - b`: the result keeps `a`'s unit. -/
def Quantity.sub (a b : Quantity) : Quantity :=
  ⟨a.m - b.toUnit a.u, a.u⟩

/-- The magnitude of a quantity in base units (its physical value);
two quantities are physically equal when these agree. -/
def Quantity.phys (q : Quantity) : ℚ := q.m * q.u.val

/-! ### Per-unit results and gathered data -/

/-- A `gufe.ProtocolUnitResult` as read by the aggregation layer: the
success flag, the display name (phase detection), and the outputs
`simtype`, `repeat_id`, `generation`, `unit_estimate`,
`unit_estimate_error` and `forward_and_reverse_energies` (the payload of
the latter is irrelevant to the aggregation logic and is opaquely
modelled by a natural number; `none` is Python's `None` sentinel). -/
structure PUR where
  ok : Bool
  name : String
  simtype : String
  repeat_id : ℕ
  generation : ℕ
  unit_estimate : Quantity
  unit_estimate_error : Quantity
  forward_and_reverse : Option ℕ
deriving DecidableEq

/-- The gathered `data` mapping of a `SepTopProtocolResult`: four
insertion-ordered dicts from repeat-id key to the list of that repeat's
unit results. -/
structure ResultData where
  solvent_setup : List (String × List PUR)
  solvent : List (String × List PUR)
  complex_setup : List (String × List PUR)
  complex : List (String × List PUR)
deriving DecidableEq

/-- `SepTopProtocolResult.__init__`: raises `NotImplementedError` when any
repeat's list in the `solvent` or `complex` dict holds more than two
entries (`itertools.chain` over exactly those two dicts). -/
def SepTopProtocolResult.init (d : ResultData) : Except PyErr ResultData :=
  if (d.solvent ++ d.complex).any (fun g => decide (2 < g.2.length)) then
    .error .notImplementedError
  else
    .ok d

/-- `SepTopProtocolResult.get_individual_estimates`: for each leg, the
list over repeats of `(pus[0].outputs['unit_estimate'],
pus[0].outputs['unit_estimate_error'])`; `pus[0]` on an empty repeat list
is an `IndexError`, modelled by `none`.  Returns `(solvent, complex)`. -/
def get_individual_estimates (d : ResultData) :
    Option (List (Quantity × Quantity) × List (Quantity × Quantity)) := do
  let cplx ← d.complex.mapM
    (fun g => g.2.head?.map (fun p => (p.unit_estimate, p.unit_estimate_error)))
  let solv ← d.solvent.mapM
    (fun g => g.2.head?.map (fun p => (p.unit_estimate, p.unit_estimate_error)))
  pure (solv, cplx)

/-- `_get_average` inside `get_estimate`: magnitudes converted to the unit
of the first estimate, then `np.average` (arithmetic mean). -/
def get_average (ests : List (Quantity × Quantity)) : Option Quantity :=
  match ests with
  | [] => none
  | e :: _ =>
    some ⟨((ests.map (fun p => p.1.toUnit e.1.u)).sum) / ests.length, e.1.u⟩

/-- `SepTopProtocolResult.get_estimate`: mean solvent-leg estimate minus
mean complex-leg estimate (pint subtraction). -/
def get_estimate (d : ResultData) : Option Quantity := do
  let (solv, cplx) ← get_individual_estimates d
  let s ← get_average solv
  let c ← get_average cplx
  pure (s.sub c)

/-- Population variance with divisor `N` (the square of `np.std`). -/
def popVar (xs : List ℚ) : ℚ :=
  (xs.map (fun x => (x - xs.sum / xs.length) ^ 2)).sum / xs.length

/-- `_get_stdev` inside `get_uncertainty`: magnitudes converted to the
unit of the first estimate, then `np.std` (population standard
deviation), carrying that unit. -/
noncomputable def get_stdev (ests : List (Quantity × Quantity)) :
    Option (ℝ × FEUnit) :=
  match ests with
  | [] => none
  | e :: _ =>
    some (Real.sqrt (popVar (ests.map (fun p => p.1.toUnit e.1.u))), e.1.u)

/-- `SepTopProtocolResult.get_uncertainty`:
`np.sqrt(solv_err**2 + complex_err**2)` on the two unit-carrying standard
deviations; the squares are summed pint-style in the solvent unit squared
and the square root returns to the solvent unit. -/
noncomputable def get_uncertainty (d : ResultData) : Option (ℝ × FEUnit) := do
  let (solv, cplx) ← get_individual_estimates d
  let (ss, us) ← get_stdev solv
  let (sc, uc) ← get_stdev cplx
  pure (Real.sqrt (ss ^ 2 + sc ^ 2 * ((uc.val / us.val : ℚ) : ℝ) ^ 2), us)

/-- `SepTopProtocolResult.get_forward_and_reverse_energy_analysis`: per
leg (complex first, then solvent, as in the source loop) the list of
`pus[0].outputs['forward_and_reverse_energies']`; whenever a leg's list
holds a `None` entry a `UserWarning` is emitted.  Returns
`(complex list, solvent list, warnings)`. -/
def get_forward_and_reverse_energy_analysis (d : ResultData) :
    Option (List (Option ℕ) × List (Option ℕ) × List String) := do
  let cplx ← d.complex.mapM (fun g => g.2.head?.map (·.forward_and_reverse))
  let warnC : List String :=
    if none ∈ cplx then
      ["One or more None entries were found in the forward and reverse "
        ++ "dictionaries of the repeats of the complex calculations."]
    else []
  let solv ← d.solvent.mapM (fun g => g.2.head?.map (·.forward_and_reverse))
  let warnS : List String :=
    if none ∈ solv then
      ["One or more None entries were found in the forward and reverse "
        ++ "dictionaries of the repeats of the solvent calculations."]
    else []
  pure (cplx, solv, warnC ++ warnS)

/-! ### Execution-unit construction (`SepTopProtocol._create`)

`uuid.uuid4()` is modelled by an identifier stream `gen : ℕ → ℕ`
consumed at successive call indices, starting at `start`; the source
calls it once per constructed unit, in the textual order of the four
list comprehensions.  Component/lambda/solvent validation happens
between the extension check and unit construction and is abstracted by
the boolean `valid` (the claims below only concern valid inputs). -/

/-- The four concrete protocol-unit classes. -/
inductive UnitKind where
  | solventSetup
  | solventRun
  | complexSetup
  | complexRun
deriving DecidableEq

/-- An execution unit as constructed by `_create`: its class, display
name, `repeat_id` and `generation` inputs. -/
structure ProtoUnit where
  kind : UnitKind
  name : String
  repeat_id : ℕ
  generation : ℕ
deriving DecidableEq

/-- The display name assembled by `_create` for one unit. -/
def septopUnitName (phase : String) (alchA alchB leg : String) (i : ℕ) :
    String :=
  "SepTop RBFE " ++ phase ++ ", transformation " ++ alchA ++ " to "
    ++ alchB ++ ", " ++ leg ++ " leg: repeat " ++ toString i
    ++ " generation 0"

/-- One of the four list comprehensions of `_create`: `R` units of one
class, the `i`-th named after repeat `i`, each tagged generation `0` and
a fresh identifier (`int(uuid.uuid4())`) drawn from the stream at
successive indices `idstart, idstart + 1, …`. -/
def mkUnits (kind : UnitKind) (phase leg : String) (gen : ℕ → ℕ)
    (idstart R : ℕ) (alchA alchB : String) : List ProtoUnit :=
  (List.range R).map (fun i =>
    { kind := kind,
      name := septopUnitName phase alchA alchB leg i,
      repeat_id := gen (idstart + i), generation := 0 })

/-- `SepTopProtocol._create`: raises `NotImplementedError` when an
extension is requested, then (after validation) builds
`solvent_setup + solvent_run + complex_setup + complex_run`, each list
with `protocol_repeats` entries; the identifier stream is consumed in
the textual order of the comprehensions. -/
def septopCreate (gen : ℕ → ℕ) (start : ℕ) (R : ℕ)
    (extends? : Bool) (valid : Bool) (alchA alchB : String) :
    Except PyErr (List ProtoUnit) :=
  if extends? then
    .error .notImplementedError
  else if !valid then
    .error .valueError
  else
    .ok (mkUnits .solventSetup "Setup" "solvent" gen start R alchA alchB
      ++ mkUnits .solventRun "Run" "solvent" gen (start + R) R alchA alchB
      ++ mkUnits .complexSetup "Setup" "complex" gen (start + 2 * R) R
           alchA alchB
      ++ mkUnits .complexRun "Run" "complex" gen (start + 3 * R) R
           alchA alchB)

/-! ### Result gathering (`SepTopProtocol._gather`) -/

/-- Is `pat` a prefix of `s` (on character lists)? -/
def startsWithL (pat s : List Char) : Bool :=
  match pat, s with
  | [], _ => true
  | _ :: _, [] => false
  | a :: as, b :: bs => a == b && startsWithL as bs

/-- Does `s` contain `pat` as a contiguous substring (Python `in`)? -/
def hasSubL (pat : List Char) : List Char → Bool
  | [] => pat.isEmpty
  | c :: rest => startsWithL pat (c :: rest) || hasSubL pat rest

/-- Python `pat in s` on strings. -/
def strHasSub (s pat : String) : Bool := hasSubL pat.data s.data

/-- Appending to a `defaultdict(list)` entry: the first group with the
key grows at its position, a missing key appends a new group. -/
def dictAppend (k : ℕ) (pu : PUR) :
    List (ℕ × List PUR) → List (ℕ × List PUR)
  | [] => [(k, [pu])]
  | (k', l) :: rest =>
    if k' = k then (k', l ++ [pu]) :: rest
    else (k', l) :: dictAppend k pu rest

/-- The four unsorted accumulators of `_gather`. -/
structure GatherAcc where
  ss : List (ℕ × List PUR)
  sr : List (ℕ × List PUR)
  cs : List (ℕ × List PUR)
  cr : List (ℕ × List PUR)

/-- One iteration of the `_gather` loop body over a unit result:
failed units are skipped; `simtype == 'solvent'` selects the solvent
accumulators, everything else the complex ones; a name containing
`"Run"` selects the run accumulator, else one containing `"Setup"` the
setup accumulator, else the unit is dropped. -/
def gatherStep (acc : GatherAcc) (pu : PUR) : GatherAcc :=
  if !pu.ok then acc
  else if pu.simtype == "solvent" then
    if strHasSub pu.name "Run" then
      { acc with sr := dictAppend pu.repeat_id pu acc.sr }
    else if strHasSub pu.name "Setup" then
      { acc with ss := dictAppend pu.repeat_id pu acc.ss }
    else acc
  else
    if strHasSub pu.name "Run" then
      { acc with cr := dictAppend pu.repeat_id pu acc.cr }
    else if strHasSub pu.name "Setup" then
      { acc with cs := dictAppend pu.repeat_id pu acc.cs }
    else acc

/-- Stable insertion (before the first strictly larger generation),
matching Python's stable `sorted` with the generation key. -/
def insertByGen (pu : PUR) : List PUR → List PUR
  | [] => [pu]
  | q :: rest =>
    if pu.generation < q.generation then pu :: q :: rest
    else q :: insertByGen pu rest

/-- `sorted(v, key=lambda x: x.outputs['generation'])`. -/
def sortByGen (l : List PUR) : List PUR := l.foldr insertByGen []

/-- `SepTopProtocol._gather`: the nested loops over DAG results and their
unit results, then each accumulator is re-keyed with `str(k)` and each
group sorted by generation. -/
def septopGather (ds : List (List PUR)) : ResultData :=
  let acc := (ds.flatten).foldl gatherStep ⟨[], [], [], []⟩
  { solvent_setup := acc.ss.map (fun g => (toString g.1, sortByGen g.2)),
    solvent := acc.sr.map (fun g => (toString g.1, sortByGen g.2)),
    complex_setup := acc.cs.map (fun g => (toString g.1, sortByGen g.2)),
    complex := acc.cr.map (fun g => (toString g.1, sortByGen g.2)) }

/-! ### Solvent-leg position update
(`SepTopSolventSetupUnit._update_positions`)

Coordinates are real 3-vectors in nanometres (the source converts to and
from `omm_units.nanometer`, an identity here). -/

/-- A 3-vector of reals. -/
abbrev V3 := ℝ × ℝ × ℝ

/-- `positions[a : b + 1]` (the contiguous NumPy slice the source takes
from the first to the last atom index of a ligand). -/
def sliceIncl (l : List V3) (a b : ℕ) : List V3 :=
  (l.drop a).take (b + 1 - a)

/-- `arr.mean(axis=0)`: the centroid of a list of vectors. -/
noncomputable def centroid (l : List V3) : V3 :=
  ((l.map (fun p => p.1)).sum / l.length,
   (l.map (fun p => p.2.1)).sum / l.length,
   (l.map (fun p => p.2.2)).sum / l.length)

/-- The Euclidean norm of a 3-vector. -/
noncomputable def norm3 (v : V3) : ℝ :=
  Real.sqrt (v.1 ^ 2 + v.2.1 ^ 2 + v.2.2 ^ 2)

/-- `np.linalg.norm(arr - arr.mean(axis=0), axis=1).max()`: the maximum
atom-to-centroid radius (norms are nonnegative, so folding `max` from `0`
agrees with NumPy's `max` on every nonempty array). -/
noncomputable def ligandRadius (l : List V3) : ℝ :=
  ((l.map (fun p => norm3 (p - centroid l))).foldr max 0)

/-- The diagonal entries of the periodic box vectors
(`[i[inx] for inx, i in enumerate(unit_cell)]`). -/
def cellDiag (box : V3 × V3 × V3) : List ℝ :=
  [box.1.1, box.2.1.2.1, box.2.2.2.2]

/-- `min(unit_cell)` for the diagonal box model. -/
noncomputable def minCell (box : V3 × V3 × V3) : ℝ :=
  min (min box.1.1 box.2.1.2.1) box.2.2.2.2

/-- `xyz[0][atom_indices_B, :] += offset`, walking the position list with
its index. -/
def addOffsetAt (off : V3) (idxB : List ℕ) : ℕ → List V3 → List V3
  | _, [] => []
  | j, p :: rest =>
    (if j ∈ idxB then p + off else p) :: addOffsetAt off idxB (j + 1) rest

/-- `SepTopSolventSetupUnit._update_positions`: slices the two ligands
out of the end-state position arrays, computes the offset distance
`1.5 * (radius_A + radius_B)` capped at half the smallest box dimension,
and shifts every ligand-B atom by
`centroid_A - centroid_B + distance * e1`. -/
noncomputable def solvent_update_positions
    (posA posB : List V3) (idxA idxB : List ℕ)
    (box : V3 × V3 × V3) : List V3 :=
  let equ_pos_ligandA := sliceIncl posA (idxA.headD 0) (idxA.getLastD 0)
  let equ_pos_ligandB := sliceIncl posB (idxB.headD 0) (idxB.getLastD 0)
  let ligand_1_radius := ligandRadius equ_pos_ligandA
  let ligand_2_radius := ligandRadius equ_pos_ligandB
  let d0 := (ligand_1_radius + ligand_2_radius) * 1.5
  let ligand_distance := if d0 > minCell box / 2 then minCell box / 2 else d0
  let ligand_offset :=
    centroid equ_pos_ligandA - centroid equ_pos_ligandB
      + ((ligand_distance, 0, 0) : V3)
  addOffsetAt ligand_offset idxB 0 posB

/-- The atoms of a ligand read off by its index list (used to state the
geometry claims; for a contiguous index list it coincides with the slice
the source takes). -/
def ligandAtoms (pos : List V3) (idx : List ℕ) : List V3 :=
  idx.map (fun j => pos.getD j ((0, 0, 0) : V3))

/-! ### Fixtures and spec-side helpers used by the theorem statements -/

/-- A dimensionless reference unit. -/
def u1 : FEUnit := ⟨1, by norm_num⟩

/-- The default unit result used when reading the head of a (provably
nonempty) repeat list. -/
def purDefault : PUR :=
  { ok := true, name := "", simtype := "", repeat_id := 0, generation := 0,
    unit_estimate := ⟨0, u1⟩, unit_estimate_error := ⟨0, u1⟩,
    forward_and_reverse := none }

/-- Default repeat group. -/
def grpDefault : String × List PUR := ("", [])

/-- The per-repeat free-energy estimates of one leg (first unit result of
each repeat group). -/
def legEstimates (groups : List (String × List PUR)) : List Quantity :=
  groups.map (fun g => (g.2.headD purDefault).unit_estimate)

/-- A leg's estimates converted to the unit `u`. -/
def convertedMags (groups : List (String × List PUR)) (u : FEUnit) :
    List ℚ :=
  (legEstimates groups).map (fun q => q.toUnit u)

/-- Arithmetic mean. -/
def specMean (xs : List ℚ) : ℚ := xs.sum / xs.length

/-- Population standard deviation (divisor `N`). -/
noncomputable def specPopStd (xs : List ℚ) : ℝ := Real.sqrt (popVar xs)

/-! ### C3: lambda-schedule validation -/

/-- **C3.** `_validate_lambda_schedule` accepts exactly when the six
lambda sequences all have equal length and that common length equals
`n_replicas`, i.e. when all six lengths equal `n_replicas`; otherwise it
raises `ValueError`. -/
theorem C3_validate_lambda_schedule_iff (ls : LambdaSettings)
    (ss : MultiStateSimulationSettings) :
    (validate_lambda_schedule ls ss = Except.ok () ↔
      (ls.lambda_elec_ligandA.length = ss.n_replicas ∧
       ls.lambda_elec_ligandB.length = ss.n_replicas ∧
       ls.lambda_vdw_ligandA.length = ss.n_replicas ∧
       ls.lambda_vdw_ligandB.length = ss.n_replicas ∧
       ls.lambda_restraints_ligandA.length = ss.n_replicas ∧
       ls.lambda_restraints_ligandB.length = ss.n_replicas)) ∧
    (validate_lambda_schedule ls ss = Except.error PyErr.valueError ↔
      ¬ (ls.lambda_elec_ligandA.length = ss.n_replicas ∧
         ls.lambda_elec_ligandB.length = ss.n_replicas ∧
         ls.lambda_vdw_ligandA.length = ss.n_replicas ∧
         ls.lambda_vdw_ligandB.length = ss.n_replicas ∧
         ls.lambda_restraints_ligandA.length = ss.n_replicas ∧
         ls.lambda_restraints_ligandB.length = ss.n_replicas)) := by
  simp only [validate_lambda_schedule]
  split_ifs with h1 h2
  · simp only [Bool.and_eq_true, beq_iff_eq] at h1
    simp only [bne_iff_ne, ne_eq] at h2
    exact ⟨⟨fun hx => absurd hx (by simp), fun hx => by exfalso; omega⟩,
           ⟨fun _ => by omega, fun _ => rfl⟩⟩
  · simp only [Bool.and_eq_true, beq_iff_eq] at h1
    simp only [bne_iff_ne, ne_eq, Decidable.not_not] at h2
    exact ⟨⟨fun _ => by omega, fun _ => rfl⟩,
           ⟨fun hx => absurd hx (by simp), fun hx => by exfalso; omega⟩⟩
  · simp only [Bool.and_eq_true, beq_iff_eq] at h1
    exact ⟨⟨fun hx => absurd hx (by simp), fun hx => by exfalso; omega⟩,
           ⟨fun _ => by omega, fun _ => rfl⟩⟩

/-- Witness for C3: the default-style schedule with 19 windows and 19
replicas validates. -/
theorem C3_validate_lambda_schedule_iff_witness :
    validate_lambda_schedule
      { lambda_elec_ligandA := List.replicate 19 0,
        lambda_elec_ligandB := List.replicate 19 0,
        lambda_vdw_ligandA := List.replicate 19 0,
        lambda_vdw_ligandB := List.replicate 19 0,
        lambda_restraints_ligandA := List.replicate 19 0,
        lambda_restraints_ligandB := List.replicate 19 0 }
      { n_replicas := 19 } = Except.ok () :=
  (C3_validate_lambda_schedule_iff _ _).1.mpr (by decide)

/-! ### C7: per-leg lambda-schedule dimensions -/

/-- **C7.** The solvent run unit's lambda schedule has exactly the four
keys `lambda_electrostatics`/`lambda_sterics` for ligands A and B, with
no restraint keys, each bound to the matching sequence of the lambda
settings; the complex run unit's schedule has exactly those four plus the
two `lambda_restraints` keys, each bound to the matching sequence. -/
theorem C7_lambda_schedule_dimensions (s : SettingsDict) :
    (solventRun_get_lambda_schedule s).map Prod.fst =
      ["lambda_electrostatics_ligandA", "lambda_sterics_ligandA",
       "lambda_electrostatics_ligandB", "lambda_sterics_ligandB"] ∧
    (complexRun_get_lambda_schedule s).map Prod.fst =
      ["lambda_electrostatics_ligandA", "lambda_sterics_ligandA",
       "lambda_restraints_ligandA", "lambda_electrostatics_ligandB",
       "lambda_sterics_ligandB", "lambda_restraints_ligandB"] ∧
    (solventRun_get_lambda_schedule s).lookup
        "lambda_electrostatics_ligandA" =
      some s.lambda_settings.lambda_elec_ligandA ∧
    (solventRun_get_lambda_schedule s).lookup "lambda_sterics_ligandA" =
      some s.lambda_settings.lambda_vdw_ligandA ∧
    (solventRun_get_lambda_schedule s).lookup
        "lambda_electrostatics_ligandB" =
      some s.lambda_settings.lambda_elec_ligandB ∧
    (solventRun_get_lambda_schedule s).lookup "lambda_sterics_ligandB" =
      some s.lambda_settings.lambda_vdw_ligandB ∧
    (solventRun_get_lambda_schedule s).lookup "lambda_restraints_ligandA" =
      none ∧
    (solventRun_get_lambda_schedule s).lookup "lambda_restraints_ligandB" =
      none ∧
    (complexRun_get_lambda_schedule s).lookup
        "lambda_electrostatics_ligandA" =
      some s.lambda_settings.lambda_elec_ligandA ∧
    (complexRun_get_lambda_schedule s).lookup "lambda_sterics_ligandA" =
      some s.lambda_settings.lambda_vdw_ligandA ∧
    (complexRun_get_lambda_schedule s).lookup "lambda_restraints_ligandA" =
      some s.lambda_settings.lambda_restraints_ligandA ∧
    (complexRun_get_lambda_schedule s).lookup
        "lambda_electrostatics_ligandB" =
      some s.lambda_settings.lambda_elec_ligandB ∧
    (complexRun_get_lambda_schedule s).lookup "lambda_sterics_ligandB" =
      some s.lambda_settings.lambda_vdw_ligandB ∧
    (complexRun_get_lambda_schedule s).lookup "lambda_restraints_ligandB" =
      some s.lambda_settings.lambda_restraints_ligandB := by
  refine ⟨rfl, rfl, ?_, ?_, ?_, ?_, ?_, ?_, ?_, ?_, ?_, ?_, ?_, ?_⟩ <;>
    simp [solventRun_get_lambda_schedule, complexRun_get_lambda_schedule,
      List.lookup]

/-! ### C10: result construction rejects stitched extensions -/

/-- **C10.** `SepTopProtocolResult.__init__` succeeds exactly when every
repeat's result list on the solvent and complex legs has at most two
entries, and raises `NotImplementedError` exactly when some such list has
more than two. -/
theorem C10_result_init_iff (d : ResultData) :
    (SepTopProtocolResult.init d = Except.ok d ↔
      ∀ g ∈ d.solvent ++ d.complex, g.2.length ≤ 2) ∧
    (SepTopProtocolResult.init d = Except.error PyErr.notImplementedError ↔
      ∃ g ∈ d.solvent ++ d.complex, 2 < g.2.length) := by
  have hiff : ((d.solvent ++ d.complex).any
        (fun g => decide (2 < g.2.length)) = true) ↔
      ∃ g ∈ d.solvent ++ d.complex, 2 < g.2.length := by
    simp only [List.any_eq_true, decide_eq_true_eq, List.mem_append]
  unfold SepTopProtocolResult.init
  split_ifs with h
  · obtain ⟨g, hg, hlen⟩ := hiff.mp h
    refine ⟨⟨fun hx => absurd hx (by simp), fun hall => ?_⟩,
            ⟨fun _ => ⟨g, hg, hlen⟩, fun _ => rfl⟩⟩
    exact absurd (hall g hg) (by omega)
  · have hall : ∀ g ∈ d.solvent ++ d.complex, g.2.length ≤ 2 := by
      intro g hg
      by_contra hx
      exact h (hiff.mpr ⟨g, hg, by omega⟩)
    refine ⟨⟨fun _ => hall, fun _ => rfl⟩,
            ⟨fun hx => absurd hx (by simp), fun hex => ?_⟩⟩
    obtain ⟨g, hg, hlen⟩ := hex
    exact absurd (hall g hg) (by omega)

/-- A successful solvent run result with a one-entry repeat list,
reused by witnesses. -/
def purSolvRun : PUR :=
  { ok := true,
    name := "SepTop RBFE Run, transformation benzene to toluene, "
      ++ "solvent leg: repeat 0 generation 0",
    simtype := "solvent", repeat_id := 11, generation := 0,
    unit_estimate := ⟨3, u1⟩, unit_estimate_error := ⟨1, u1⟩,
    forward_and_reverse := some 0 }

/-- A successful complex run result. -/
def purCplxRun : PUR :=
  { ok := true,
    name := "SepTop RBFE Run, transformation benzene to toluene, "
      ++ "complex leg: repeat 0 generation 0",
    simtype := "complex", repeat_id := 21, generation := 0,
    unit_estimate := ⟨1, u1⟩, unit_estimate_error := ⟨1, u1⟩,
    forward_and_reverse := some 1 }

/-- A small gathered data set with one repeat per leg. -/
def dataSmall : ResultData :=
  { solvent_setup := [], solvent := [("11", [purSolvRun])],
    complex_setup := [], complex := [("21", [purCplxRun])] }

/-- Witness for C10: the small data set with one result per repeat is
accepted. -/
theorem C10_result_init_iff_witness :
    SepTopProtocolResult.init dataSmall = Except.ok dataSmall :=
  (C10_result_init_iff dataSmall).1.mpr (by decide)


/-! ### C6: `_create` unit construction -/

theorem mkUnits_length (k : UnitKind) (p l : String) (gen : ℕ → ℕ)
    (s R : ℕ) (a b : String) : (mkUnits k p l gen s R a b).length = R := by
  simp [mkUnits]

theorem mkUnits_kind (k : UnitKind) (p l : String) (gen : ℕ → ℕ)
    (s R : ℕ) (a b : String) :
    (mkUnits k p l gen s R a b).map ProtoUnit.kind =
      List.replicate R k := by
  simp [mkUnits, List.map_map, Function.comp_def, List.map_const']

theorem mkUnits_ids (k : UnitKind) (p l : String) (gen : ℕ → ℕ)
    (s R : ℕ) (a b : String) :
    (mkUnits k p l gen s R a b).map ProtoUnit.repeat_id =
      (List.range' s R).map gen := by
  simp [mkUnits, List.map_map, Function.comp_def, List.range'_eq_map_range]

/-- **C6.** With no extension, `_create` returns exactly `4 * R` units in
the order `R` solvent-setup, `R` solvent-run, `R` complex-setup,
`R` complex-run, each of generation `0`; with an extension supplied it
raises `NotImplementedError` (constructing no units), whatever the
validation outcome. -/
theorem C6_create_units (gen : ℕ → ℕ) (start R : ℕ) (alchA alchB : String) :
    (∀ v, septopCreate gen start R true v alchA alchB =
      Except.error PyErr.notImplementedError) ∧
    ∃ us, septopCreate gen start R false true alchA alchB = Except.ok us ∧
      us.length = 4 * R ∧
      (us.take R).map ProtoUnit.kind = List.replicate R UnitKind.solventSetup ∧
      ((us.drop R).take R).map ProtoUnit.kind =
        List.replicate R UnitKind.solventRun ∧
      ((us.drop (2 * R)).take R).map ProtoUnit.kind =
        List.replicate R UnitKind.complexSetup ∧
      (us.drop (3 * R)).map ProtoUnit.kind =
        List.replicate R UnitKind.complexRun ∧
      ∀ u ∈ us, u.generation = 0 := by
  refine ⟨fun v => rfl, _, rfl, ?_, ?_, ?_, ?_, ?_, ?_⟩
  · simp [mkUnits_length]; ring
  · rw [List.append_assoc, List.append_assoc,
      List.take_left' (mkUnits_length _ _ _ _ _ _ _ _), mkUnits_kind]
  · rw [List.append_assoc, List.append_assoc,
      List.drop_left' (mkUnits_length _ _ _ _ _ _ _ _),
      List.take_left' (mkUnits_length _ _ _ _ _ _ _ _), mkUnits_kind]
  · rw [List.append_assoc, List.append_assoc,
      show 2 * R = R + R by ring, ← List.drop_drop,
      List.drop_left' (mkUnits_length _ _ _ _ _ _ _ _),
      List.drop_left' (mkUnits_length _ _ _ _ _ _ _ _),
      List.take_left' (mkUnits_length _ _ _ _ _ _ _ _), mkUnits_kind]
  · rw [List.append_assoc, List.append_assoc,
      show 3 * R = R + R + R by ring, ← List.drop_drop, ← List.drop_drop,
      List.drop_left' (mkUnits_length _ _ _ _ _ _ _ _),
      List.drop_left' (mkUnits_length _ _ _ _ _ _ _ _),
      List.drop_left' (mkUnits_length _ _ _ _ _ _ _ _), mkUnits_kind]
  · intro u hu
    simp only [List.mem_append, mkUnits, List.mem_map, List.mem_range] at hu
    rcases hu with ((⟨i, _, rfl⟩ | ⟨i, _, rfl⟩) | ⟨i, _, rfl⟩) | ⟨i, _, rfl⟩ <;>
      rfl

/-- Witness for C6: a two-repeat creation, instantiated at the identity
identifier stream. -/
theorem C6_create_units_witness :
    ∀ u ∈ (septopCreate id 0 2 false true "benzene"
      "toluene").toOption.getD [], u.generation = 0 := by
  have h := (C6_create_units id 0 2 "benzene" "toluene").2
  obtain ⟨us, hok, -, -, -, -, -, hgen⟩ := h
  intro u hu
  rw [hok] at hu
  exact hgen u hu

/-! ### C1: repeat identifiers across execution graphs -/

theorem septopCreate_ids (gen : ℕ → ℕ) (start R : ℕ) (a b : String)
    (us : List ProtoUnit)
    (h : septopCreate gen start R false true a b = Except.ok us) :
    us.map ProtoUnit.repeat_id = (List.range' start (4 * R)).map gen := by
  have hus : us = mkUnits .solventSetup "Setup" "solvent" gen start R a b
      ++ mkUnits .solventRun "Run" "solvent" gen (start + R) R a b
      ++ mkUnits .complexSetup "Setup" "complex" gen (start + 2 * R) R a b
      ++ mkUnits .complexRun "Run" "complex" gen (start + 3 * R) R a b := by
    simpa [septopCreate] using h.symm
  subst hus
  simp only [List.map_append, mkUnits_ids]
  rw [← List.map_append, ← List.map_append, ← List.map_append,
    List.range'_append_1 start R R,
    show start + 2 * R = start + (R + R) from by ring,
    List.range'_append_1 start (R + R) R,
    show start + 3 * R = start + (R + (R + R)) from by ring,
    List.range'_append_1 start (R + (R + R)) R,
    show R + (R + (R + R)) = 4 * R from by ring]

/-- The repeat identifiers of one execution graph created with the
identity identifier stream starting at `s`, for one repeat. -/
def createdIds (s : ℕ) : List ℕ :=
  ((septopCreate id s 1 false true "benzene" "toluene").toOption.getD
    []).map ProtoUnit.repeat_id

/-- **C1 (counterexample).** For `R = 1`, the four units of one graph get
four pairwise distinct repeat identifiers — the solvent setup unit and
its paired solvent run unit do not share one — and two graphs together
hold 8 distinct identifiers, so the claimed pair-sharing and the claimed
`2R = 2` distinct identifiers both fail. -/
theorem C1_counterexample :
    createdIds 0 = [0, 1, 2, 3] ∧
    (createdIds 0 ++ createdIds 4).dedup.length = 8 ∧
    ¬ ((createdIds 0).headD 0 = (createdIds 0).getD 1 0 ∧
       (createdIds 0 ++ createdIds 4).dedup.length = 2 * 1) := by
  decide

/-- **C1 (amended).** Each execution unit produced by `_create` is tagged
with its own freshly generated repeat identifier — not shared between a
setup unit and its paired run unit — so two independently created
execution graphs for the same transformation with `R` repeats together
contain exactly `8R` units whose repeat identifiers are pairwise
distinct. -/
theorem C1_amended_fresh_ids (gen : ℕ → ℕ)
    (hinj : Function.Injective gen) (start R : ℕ) (a b a2 b2 : String)
    (us1 us2 : List ProtoUnit)
    (h1 : septopCreate gen start R false true a b = Except.ok us1)
    (h2 : septopCreate gen (start + 4 * R) R false true a2 b2 =
      Except.ok us2) :
    ((us1 ++ us2).map ProtoUnit.repeat_id).Nodup ∧
    (us1 ++ us2).length = 8 * R := by
  have i1 := septopCreate_ids gen start R a b us1 h1
  have i2 := septopCreate_ids gen (start + 4 * R) R a2 b2 us2 h2
  constructor
  · rw [List.map_append, i1, i2, ← List.map_append,
      List.range'_append_1 start (4 * R) (4 * R)]
    exact (List.nodup_range' _ _).map hinj
  · have l1 : us1.length = 4 * R := by
      have := congrArg List.length i1
      simpa using this
    have l2 : us2.length = 4 * R := by
      have := congrArg List.length i2
      simpa using this
    rw [List.length_append, l1, l2]
    ring

/-- Witness for C1 (amended): two concrete one-repeat graphs built from
the identity identifier stream. -/
theorem C1_amended_fresh_ids_witness :
    (((((septopCreate id 0 1 false true "benzene"
          "toluene").toOption.getD [])
        ++ ((septopCreate id (0 + 4 * 1) 1 false true "benzene"
          "toluene").toOption.getD [])).map ProtoUnit.repeat_id).Nodup) ∧
    ((((septopCreate id 0 1 false true "benzene"
          "toluene").toOption.getD [])
        ++ ((septopCreate id (0 + 4 * 1) 1 false true "benzene"
          "toluene").toOption.getD [])).length = 8 * 1) :=
  C1_amended_fresh_ids id Function.injective_id 0 1 "benzene" "toluene"
    "benzene" "toluene" _ _ rfl rfl

/-! ### C2: estimate and uncertainty formulas -/

theorem mapM_head_eq {β : Type} (f : PUR → β)
    (groups : List (String × List PUR)) (h : ∀ g ∈ groups, g.2 ≠ []) :
    groups.mapM (fun g => g.2.head?.map f) =
      some (groups.map (fun g => f (g.2.headD purDefault))) := by
  induction groups with
  | nil => rfl
  | cons g gs ih =>
    have hg := h g (List.mem_cons_self g gs)
    have hgs : ∀ g2 ∈ gs, g2.2 ≠ [] :=
      fun g2 hg2 => h g2 (List.mem_cons_of_mem _ hg2)
    obtain ⟨x, xs, hx⟩ := List.exists_cons_of_ne_nil hg
    rw [List.mapM_cons, hx, ih hgs]
    simp [hx]

/-- The per-repeat (estimate, error) pair read from a group's first unit
result. -/
def estPair (g : String × List PUR) : Quantity × Quantity :=
  ((g.2.headD purDefault).unit_estimate, (g.2.headD purDefault).unit_estimate_error)

theorem get_individual_estimates_eq (d : ResultData)
    (hgs : ∀ g ∈ d.solvent, g.2 ≠ []) (hgc : ∀ g ∈ d.complex, g.2 ≠ []) :
    get_individual_estimates d =
      some (d.solvent.map estPair, d.complex.map estPair) := by
  simp only [get_individual_estimates,
    mapM_head_eq (fun p => (p.unit_estimate, p.unit_estimate_error))
      d.complex hgc,
    mapM_head_eq (fun p => (p.unit_estimate, p.unit_estimate_error))
      d.solvent hgs,
    Option.bind_eq_bind, Option.some_bind]
  rfl

theorem get_average_eq (groups : List (String × List PUR)) (u : FEUnit)
    (hne : groups ≠ [])
    (hu : ((groups.headD grpDefault).2.headD purDefault).unit_estimate.u
      = u) :
    get_average (groups.map estPair) =
      some ⟨specMean (convertedMags groups u), u⟩ := by
  obtain ⟨g0, gs, rfl⟩ := List.exists_cons_of_ne_nil hne
  simp only [List.headD_cons] at hu
  simp only [List.map_cons, get_average, estPair, hu]
  simp only [specMean, convertedMags, legEstimates, List.map_map,
    Function.comp_def, List.map_cons, List.length_cons, List.length_map,
    estPair]

theorem get_stdev_eq (groups : List (String × List PUR)) (u : FEUnit)
    (hne : groups ≠ [])
    (hu : ((groups.headD grpDefault).2.headD purDefault).unit_estimate.u
      = u) :
    get_stdev (groups.map estPair) =
      some (specPopStd (convertedMags groups u), u) := by
  obtain ⟨g0, gs, rfl⟩ := List.exists_cons_of_ne_nil hne
  simp only [List.headD_cons] at hu
  simp only [List.map_cons, get_stdev, estPair, hu]
  simp only [specPopStd, convertedMags, legEstimates, List.map_map,
    Function.comp_def, List.map_cons, estPair]

/-- **C2.** On a gathered result set whose legs are nonempty, every
repeat group nonempty, and whose two legs report their first repeat in
the same unit `u`: `get_estimate` is the mean of the solvent-leg
magnitudes converted to `u` minus the mean of the complex-leg converted
magnitudes (carried in `u`), and `get_uncertainty` is
`sqrt(solvent_std² + complex_std²)` of the population standard
deviations (divisor `N`) of the same converted magnitudes (in `u`). -/
theorem C2_estimate_and_uncertainty (d : ResultData) (u : FEUnit)
    (hs : d.solvent ≠ []) (hc : d.complex ≠ [])
    (hgs : ∀ g ∈ d.solvent, g.2 ≠ []) (hgc : ∀ g ∈ d.complex, g.2 ≠ [])
    (hus : ((d.solvent.headD grpDefault).2.headD
      purDefault).unit_estimate.u = u)
    (huc : ((d.complex.headD grpDefault).2.headD
      purDefault).unit_estimate.u = u) :
    get_estimate d = some ⟨specMean (convertedMags d.solvent u)
        - specMean (convertedMags d.complex u), u⟩ ∧
    get_uncertainty d = some
      (Real.sqrt (specPopStd (convertedMags d.solvent u) ^ 2
        + specPopStd (convertedMags d.complex u) ^ 2), u) := by
  have hie := get_individual_estimates_eq d hgs hgc
  constructor
  · simp only [get_estimate, hie, Option.bind_eq_bind, Option.some_bind,
      get_average_eq d.solvent u hs hus, get_average_eq d.complex u hc huc]
    simp only [Quantity.sub, Quantity.toUnit]
    rw [mul_div_cancel_right₀ _ (ne_of_gt u.2)]
    rfl
  · simp only [get_uncertainty, hie, Option.bind_eq_bind, Option.some_bind,
      get_stdev_eq d.solvent u hs hus, get_stdev_eq d.complex u hc huc]
    rw [div_self (ne_of_gt u.2)]
    norm_num

/-- Witness for C2 at the one-repeat-per-leg data set. -/
theorem C2_estimate_and_uncertainty_witness :
    get_estimate dataSmall = some ⟨specMean (convertedMags
        dataSmall.solvent u1) - specMean (convertedMags
        dataSmall.complex u1), u1⟩ ∧
    get_uncertainty dataSmall = some
      (Real.sqrt (specPopStd (convertedMags dataSmall.solvent u1) ^ 2
        + specPopStd (convertedMags dataSmall.complex u1) ^ 2), u1) :=
  C2_estimate_and_uncertainty dataSmall u1 (by decide) (by decide)
    (by decide) (by decide) (by decide) (by decide)

/-! ### C4: order invariance of estimate and uncertainty -/

/-- A leg's estimates in base units (the representation-independent
physical magnitudes). -/
def basePhys (groups : List (String × List PUR)) : List ℚ :=
  (legEstimates groups).map Quantity.phys

theorem sum_map_div {α : Type} (xs : List α) (f : α → ℚ) (c : ℚ) :
    (xs.map (fun x => f x / c)).sum = (xs.map f).sum / c := by
  induction xs with
  | nil => simp
  | cons a l ih => simp [add_div, ih]

theorem popVar_div (xs : List ℚ) (c : ℚ) :
    popVar (xs.map (fun x => x / c)) = popVar xs / c ^ 2 := by
  have hsum : (xs.map (fun x => x / c)).sum = xs.sum / c := by
    simpa using sum_map_div xs (fun x => x) c
  simp only [popVar, List.map_map, List.length_map, Function.comp_def,
    hsum]
  rw [show (xs.map fun x => (x / c - xs.sum / c / ↑xs.length) ^ 2)
        = xs.map fun x => (x - xs.sum / ↑xs.length) ^ 2 / c ^ 2 from
      List.map_congr_left fun x _ => by
        rw [div_right_comm, ← sub_div, div_pow],
    sum_map_div xs (fun x => (x - xs.sum / ↑xs.length) ^ 2) (c ^ 2),
    div_right_comm]

theorem popVar_nonneg (xs : List ℚ) : 0 ≤ popVar xs := by
  unfold popVar
  apply div_nonneg _ (Nat.cast_nonneg _)
  apply List.sum_nonneg
  intro x hx
  obtain ⟨y, -, rfl⟩ := List.mem_map.mp hx
  positivity

theorem toUnit_eq_phys_div (q : Quantity) (u : FEUnit) :
    q.toUnit u = q.phys / u.val := rfl

theorem convertedMags_eq (groups : List (String × List PUR))
    (u : FEUnit) :
    convertedMags groups u = (basePhys groups).map (fun x => x / u.val) := by
  simp [convertedMags, basePhys, List.map_map, Function.comp_def,
    toUnit_eq_phys_div]

theorem specMean_div (l : List ℚ) (c : ℚ) :
    specMean (l.map (fun x => x / c)) = specMean l / c := by
  simp only [specMean, List.length_map,
    show (l.map (fun x => x / c)).sum = l.sum / c from by
      simpa using sum_map_div l (fun x => x) c,
    div_right_comm]

theorem get_average_phys (groups : List (String × List PUR))
    (hne : groups ≠ []) :
    ∃ q, get_average (groups.map estPair) = some q ∧
      q.phys = specMean (basePhys groups) := by
  refine ⟨_, get_average_eq groups _ hne rfl, ?_⟩
  simp only [Quantity.phys, convertedMags_eq, specMean_div]
  exact div_mul_cancel₀ _
    (ne_of_gt (((groups.headD grpDefault).2.headD
      purDefault).unit_estimate.u).2)

theorem get_stdev_phys (groups : List (String × List PUR))
    (hne : groups ≠ []) :
    ∃ s u, get_stdev (groups.map estPair) = some (s, u) ∧ 0 ≤ s ∧
      s * (u.val : ℝ) = Real.sqrt (popVar (basePhys groups)) := by
  refine ⟨_, _, get_stdev_eq groups _ hne rfl, Real.sqrt_nonneg _, ?_⟩
  set u := ((groups.headD grpDefault).2.headD purDefault).unit_estimate.u
  have hu : (0 : ℝ) < (u.val : ℝ) := by exact_mod_cast u.2
  rw [specPopStd, convertedMags_eq, popVar_div]
  push_cast
  rw [Real.sqrt_div (by exact_mod_cast popVar_nonneg (basePhys groups)) _,
    Real.sqrt_sq hu.le, div_mul_cancel₀ _ (ne_of_gt hu)]

theorem get_estimate_phys (d : ResultData)
    (hs : d.solvent ≠ []) (hc : d.complex ≠ [])
    (hgs : ∀ g ∈ d.solvent, g.2 ≠ []) (hgc : ∀ g ∈ d.complex, g.2 ≠ []) :
    ∃ q, get_estimate d = some q ∧
      q.phys = specMean (basePhys d.solvent)
        - specMean (basePhys d.complex) := by
  have hie := get_individual_estimates_eq d hgs hgc
  obtain ⟨qs, hqs, hps⟩ := get_average_phys d.solvent hs
  obtain ⟨qc, hqc, hpc⟩ := get_average_phys d.complex hc
  refine ⟨qs.sub qc, ?_, ?_⟩
  · simp [get_estimate, hie, hqs, hqc]
  · have : (qs.sub qc).phys = qs.phys - qc.phys := by
      simp only [Quantity.sub, Quantity.phys, Quantity.toUnit]
      rw [sub_mul, div_mul_cancel₀ _ (ne_of_gt qs.u.2)]
    rw [this, hps, hpc]

theorem get_uncertainty_phys (d : ResultData)
    (hs : d.solvent ≠ []) (hc : d.complex ≠ [])
    (hgs : ∀ g ∈ d.solvent, g.2 ≠ []) (hgc : ∀ g ∈ d.complex, g.2 ≠ []) :
    ∃ p : ℝ × FEUnit, get_uncertainty d = some p ∧
      p.1 * (p.2.val : ℝ) = Real.sqrt (popVar (basePhys d.solvent)
        + popVar (basePhys d.complex)) := by
  have hie := get_individual_estimates_eq d hgs hgc
  obtain ⟨ss, us, hss, hsnn, hsp⟩ := get_stdev_phys d.solvent hs
  obtain ⟨sc, uc, hsc, hcnn, hcp⟩ := get_stdev_phys d.complex hc
  have hus : (0 : ℝ) < (us.val : ℝ) := by exact_mod_cast us.2
  have huc : (0 : ℝ) < (uc.val : ℝ) := by exact_mod_cast uc.2
  refine ⟨(Real.sqrt (ss ^ 2 + sc ^ 2
    * ((uc.val : ℝ) / (us.val : ℝ)) ^ 2), us), ?_, ?_⟩
  · simp only [get_uncertainty, hie, Option.bind_eq_bind,
      Option.some_bind, hss, hsc]
    norm_cast
  have key : Real.sqrt (ss ^ 2 + sc ^ 2
        * ((uc.val : ℝ) / (us.val : ℝ)) ^ 2) * (us.val : ℝ)
      = Real.sqrt ((ss * (us.val : ℝ)) ^ 2 + (sc * (uc.val : ℝ)) ^ 2) := by
    rw [show ((ss * (us.val : ℝ)) ^ 2 + (sc * (uc.val : ℝ)) ^ 2)
        = (ss ^ 2 + sc ^ 2 * ((uc.val : ℝ) / (us.val : ℝ)) ^ 2)
          * ((us.val : ℝ)) ^ 2 from by
          field_simp
          ring,
      Real.sqrt_mul (by positivity) _, Real.sqrt_sq hus.le]
  dsimp only
  rw [key, hsp, hcp, Real.sq_sqrt
      (by exact_mod_cast popVar_nonneg (basePhys d.solvent)),
    Real.sq_sqrt (by exact_mod_cast popVar_nonneg (basePhys d.complex))]

theorem specMean_perm {xs ys : List ℚ} (h : xs.Perm ys) :
    specMean xs = specMean ys := by
  simp [specMean, h.sum_eq, h.length_eq]

theorem popVar_perm {xs ys : List ℚ} (h : xs.Perm ys) :
    popVar xs = popVar ys := by
  simp only [popVar, h.sum_eq, h.length_eq]
  rw [(h.map _).sum_eq]

/-- **C4.** `get_estimate` and `get_uncertainty` are invariant, as
unit-carrying quantities (compared by their physical magnitudes, since
the representation unit is taken from whichever repeat comes first),
under any permutation of the per-repeat results of each leg. -/
theorem C4_order_invariance (d d2 : ResultData)
    (hps : d2.solvent.Perm d.solvent) (hpc : d2.complex.Perm d.complex)
    (hs : d.solvent ≠ []) (hc : d.complex ≠ [])
    (hgs : ∀ g ∈ d.solvent, g.2 ≠ []) (hgc : ∀ g ∈ d.complex, g.2 ≠ []) :
    (get_estimate d).map Quantity.phys
      = (get_estimate d2).map Quantity.phys ∧
    (get_uncertainty d).map (fun p => p.1 * (p.2.val : ℝ))
      = (get_uncertainty d2).map (fun p => p.1 * (p.2.val : ℝ)) := by
  have hs2 : d2.solvent ≠ [] := fun h => hs (h ▸ hps).symm.eq_nil
  have hc2 : d2.complex ≠ [] := fun h => hc (h ▸ hpc).symm.eq_nil
  have hgs2 : ∀ g ∈ d2.solvent, g.2 ≠ [] :=
    fun g hg => hgs g (hps.mem_iff.mp hg)
  have hgc2 : ∀ g ∈ d2.complex, g.2 ≠ [] :=
    fun g hg => hgc g (hpc.mem_iff.mp hg)
  have hbs : (basePhys d2.solvent).Perm (basePhys d.solvent) :=
    (hps.map _).map _
  have hbc : (basePhys d2.complex).Perm (basePhys d.complex) :=
    (hpc.map _).map _
  obtain ⟨q, hq, hqp⟩ := get_estimate_phys d hs hc hgs hgc
  obtain ⟨q2, hq2, hqp2⟩ := get_estimate_phys d2 hs2 hc2 hgs2 hgc2
  obtain ⟨p, hp, hpp⟩ := get_uncertainty_phys d hs hc hgs hgc
  obtain ⟨p2, hp2, hpp2⟩ := get_uncertainty_phys d2 hs2 hc2 hgs2 hgc2
  constructor
  · rw [hq, hq2, Option.map_some', Option.map_some', hqp, hqp2,
      specMean_perm hbs, specMean_perm hbc]
  · rw [hp, hp2, Option.map_some', Option.map_some', hpp, hpp2,
      popVar_perm hbs, popVar_perm hbc]

/-- A second solvent repeat result. -/
def purSolvRun2 : PUR :=
  { ok := true,
    name := "SepTop RBFE Run, transformation benzene to toluene, "
      ++ "solvent leg: repeat 1 generation 0",
    simtype := "solvent", repeat_id := 12, generation := 0,
    unit_estimate := ⟨5, u1⟩, unit_estimate_error := ⟨1, u1⟩,
    forward_and_reverse := some 2 }

/-- Two solvent repeats in gathered order. -/
def dataTwo : ResultData :=
  { solvent_setup := [],
    solvent := [("11", [purSolvRun]), ("12", [purSolvRun2])],
    complex_setup := [], complex := [("21", [purCplxRun])] }

/-- The same data with the solvent repeats supplied in swapped order. -/
def dataTwoSwapped : ResultData :=
  { solvent_setup := [],
    solvent := [("12", [purSolvRun2]), ("11", [purSolvRun])],
    complex_setup := [], complex := [("21", [purCplxRun])] }

/-- Witness for C4: swapping the two solvent repeats leaves the physical
estimate and uncertainty unchanged. -/
theorem C4_order_invariance_witness :
    (get_estimate dataTwo).map Quantity.phys
      = (get_estimate dataTwoSwapped).map Quantity.phys ∧
    (get_uncertainty dataTwo).map (fun p => p.1 * (p.2.val : ℝ))
      = (get_uncertainty dataTwoSwapped).map
          (fun p => p.1 * (p.2.val : ℝ)) :=
  C4_order_invariance dataTwo dataTwoSwapped (by decide) (by decide)
    (by decide) (by decide) (by decide) (by decide)

/-! ### C9: `None` forward/reverse entries warn but do not block -/

/-- The forward/reverse analysis entry of a repeat group's first result. -/
def frHead (g : String × List PUR) : Option ℕ :=
  (g.2.headD purDefault).forward_and_reverse

/-- Replace a unit result's forward/reverse analysis entry. -/
def setFR (f : Option ℕ → Option ℕ) (pu : PUR) : PUR :=
  { pu with forward_and_reverse := f pu.forward_and_reverse }

/-- Rewrite every forward/reverse analysis entry of a gathered data set. -/
def mapFRData (f : Option ℕ → Option ℕ) (d : ResultData) : ResultData :=
  { solvent_setup := d.solvent_setup.map (fun g => (g.1, g.2.map (setFR f))),
    solvent := d.solvent.map (fun g => (g.1, g.2.map (setFR f))),
    complex_setup := d.complex_setup.map (fun g => (g.1, g.2.map (setFR f))),
    complex := d.complex.map (fun g => (g.1, g.2.map (setFR f))) }

theorem mapM_est_setFR (f : Option ℕ → Option ℕ)
    (groups : List (String × List PUR)) :
    ((groups.map (fun g => (g.1, g.2.map (setFR f)))).mapM
      (fun g => g.2.head?.map
        (fun p => (p.unit_estimate, p.unit_estimate_error))))
    = groups.mapM (fun g => g.2.head?.map
        (fun p => (p.unit_estimate, p.unit_estimate_error))) := by
  induction groups with
  | nil => rfl
  | cons g gs ih =>
    simp only [List.map_cons, List.mapM_cons, ih]
    rw [List.head?_map]
    cases g.2.head? <;> simp [setFR]

theorem get_individual_estimates_mapFR (f : Option ℕ → Option ℕ)
    (d : ResultData) :
    get_individual_estimates (mapFRData f d) =
      get_individual_estimates d := by
  simp only [get_individual_estimates, mapFRData, mapM_est_setFR]

theorem get_estimate_mapFR (f : Option ℕ → Option ℕ) (d : ResultData) :
    get_estimate (mapFRData f d) = get_estimate d := by
  simp only [get_estimate, get_individual_estimates_mapFR]

/-- **C9.** When some repeat's forward/reverse analysis entry is the
`None` sentinel, `get_forward_and_reverse_energy_analysis` returns the
full per-leg lists (with the `None` entries included) together with a
nonempty warning list (no exception), and `get_estimate` still returns a
quantity, which does not depend on the forward/reverse entries at all. -/
theorem C9_none_analysis_warns (d : ResultData)
    (hs : d.solvent ≠ []) (hc : d.complex ≠ [])
    (hgs : ∀ g ∈ d.solvent, g.2 ≠ []) (hgc : ∀ g ∈ d.complex, g.2 ≠ [])
    (hnone : (∃ g ∈ d.solvent, frHead g = none) ∨
             (∃ g ∈ d.complex, frHead g = none)) :
    (∃ ws, get_forward_and_reverse_energy_analysis d =
        some (d.complex.map frHead, d.solvent.map frHead, ws) ∧
      ws ≠ []) ∧
    (∃ q, get_estimate d = some q) ∧
    (∀ f, get_estimate (mapFRData f d) = get_estimate d) := by
  refine ⟨?_, ?_, fun f => get_estimate_mapFR f d⟩
  · simp only [get_forward_and_reverse_energy_analysis,
      mapM_head_eq (fun p => p.forward_and_reverse) d.complex hgc,
      mapM_head_eq (fun p => p.forward_and_reverse) d.solvent hgs,
      Option.bind_eq_bind, Option.some_bind]
    refine ⟨_, rfl, ?_⟩
    rcases hnone with ⟨g, hg, hfr⟩ | ⟨g, hg, hfr⟩
    · have hmem : none ∈ d.solvent.map
          (fun g => (g.2.headD purDefault).forward_and_reverse) :=
        List.mem_map.mpr ⟨g, hg, hfr⟩
      rw [if_pos hmem]
      intro hnil
      exact absurd (List.append_eq_nil.mp hnil).2 (by simp)
    · have hmem : none ∈ d.complex.map
          (fun g => (g.2.headD purDefault).forward_and_reverse) :=
        List.mem_map.mpr ⟨g, hg, hfr⟩
      rw [if_pos hmem]
      intro hnil
      exact absurd (List.append_eq_nil.mp hnil).1 (by simp)
  · obtain ⟨q, hq, -⟩ := get_estimate_phys d hs hc hgs hgc
    exact ⟨q, hq⟩

/-- A solvent repeat whose forward/reverse analysis failed (`None`). -/
def purSolvRunNoFR : PUR :=
  { purSolvRun with forward_and_reverse := none }

/-- A gathered data set with a `None` forward/reverse entry on the
solvent leg. -/
def dataNoneFR : ResultData :=
  { solvent_setup := [], solvent := [("11", [purSolvRunNoFR])],
    complex_setup := [], complex := [("21", [purCplxRun])] }

/-- Witness for C9 at a data set with one failed analysis entry. -/
theorem C9_none_analysis_warns_witness :
    (∃ ws, get_forward_and_reverse_energy_analysis dataNoneFR =
        some (dataNoneFR.complex.map frHead,
          dataNoneFR.solvent.map frHead, ws) ∧ ws ≠ []) ∧
    (∃ q, get_estimate dataNoneFR = some q) ∧
    (∀ f, get_estimate (mapFRData f dataNoneFR)
      = get_estimate dataNoneFR) :=
  C9_none_analysis_warns dataNoneFR (by decide) (by decide) (by decide)
    (by decide) (Or.inl ⟨("11", [purSolvRunNoFR]), by decide, by decide⟩)

/-! ### C8: gathering partitions, skips failures, groups and sorts -/

/-- All unit results stored in an accumulator bucket (keyed by `ℕ`). -/
def accJoin (b : List (ℕ × List PUR)) : List PUR :=
  (b.map Prod.snd).flatten

/-- All unit results stored in a final bucket (keyed by `String`). -/
def bucketJoin (b : List (String × List PUR)) : List PUR :=
  (b.map Prod.snd).flatten

/-- Successful solvent-leg unit with `"Run"` in its name. -/
def tagSR (pu : PUR) : Bool :=
  pu.ok && pu.simtype == "solvent" && strHasSub pu.name "Run"

/-- Successful solvent-leg unit with `"Setup"` but not `"Run"` in its
name. -/
def tagSS (pu : PUR) : Bool :=
  pu.ok && pu.simtype == "solvent" && !strHasSub pu.name "Run"
    && strHasSub pu.name "Setup"

/-- Successful non-solvent unit with `"Run"` in its name. -/
def tagCR (pu : PUR) : Bool :=
  pu.ok && !(pu.simtype == "solvent") && strHasSub pu.name "Run"

/-- Successful non-solvent unit with `"Setup"` but not `"Run"` in its
name. -/
def tagCS (pu : PUR) : Bool :=
  pu.ok && !(pu.simtype == "solvent") && !strHasSub pu.name "Run"
    && strHasSub pu.name "Setup"

theorem dictAppend_join_perm (k : ℕ) (pu : PUR)
    (b : List (ℕ × List PUR)) :
    (accJoin (dictAppend k pu b)).Perm (pu :: accJoin b) := by
  induction b with
  | nil => simp [dictAppend, accJoin]
  | cons g rest ih =>
    obtain ⟨k2, l⟩ := g
    by_cases hk : k2 = k
    · simp only [dictAppend, if_pos hk, accJoin, List.map_cons,
        List.flatten_cons, List.append_assoc, List.singleton_append]
      exact List.perm_middle
    · simp only [dictAppend, if_neg hk, accJoin, List.map_cons,
        List.flatten_cons]
      exact (ih.append_left l).trans List.perm_middle

theorem gatherStep_perm (acc : GatherAcc) (pu : PUR) :
    (accJoin (gatherStep acc pu).sr).Perm
      ((if tagSR pu then [pu] else []) ++ accJoin acc.sr) ∧
    (accJoin (gatherStep acc pu).ss).Perm
      ((if tagSS pu then [pu] else []) ++ accJoin acc.ss) ∧
    (accJoin (gatherStep acc pu).cr).Perm
      ((if tagCR pu then [pu] else []) ++ accJoin acc.cr) ∧
    (accJoin (gatherStep acc pu).cs).Perm
      ((if tagCS pu then [pu] else []) ++ accJoin acc.cs) := by
  unfold gatherStep
  cases hok : pu.ok
  · simp [tagSR, tagSS, tagCR, tagCS, hok]
  · simp only [hok, Bool.not_true, Bool.false_eq_true, if_false]
    by_cases hsim : (pu.simtype == "solvent") = true
    · cases hrun : strHasSub pu.name "Run"
      · cases hset : strHasSub pu.name "Setup"
        · simp [tagSR, tagSS, tagCR, tagCS, hok, hsim, hrun, hset]
        · simp only [tagSR, tagSS, tagCR, tagCS, hok, hsim, hrun, hset,
            Bool.false_eq_true, if_false, if_true, Bool.and_true,
            Bool.and_false, Bool.true_and, Bool.not_false, Bool.not_true]
          refine ⟨by simp, ?_, by simp [hsim], by simp [hsim]⟩
          simpa using dictAppend_join_perm pu.repeat_id pu acc.ss
      · simp only [tagSR, tagSS, tagCR, tagCS, hok, hsim, hrun,
          Bool.true_and, Bool.and_true, Bool.and_false, Bool.not_true,
          Bool.false_and, Bool.false_eq_true, if_false, if_true]
        refine ⟨?_, by simp, by simp [hsim], by simp [hsim]⟩
        simpa using dictAppend_join_perm pu.repeat_id pu acc.sr
    · cases hrun : strHasSub pu.name "Run"
      · cases hset : strHasSub pu.name "Setup"
        · simp [tagSR, tagSS, tagCR, tagCS, hok, hsim, hrun, hset]
        · simp only [tagSR, tagSS, tagCR, tagCS, hok, hsim, hrun, hset,
            Bool.false_eq_true, if_false, if_true, Bool.and_true,
            Bool.and_false, Bool.true_and, Bool.not_false, Bool.not_true]
          refine ⟨by simp [hsim], by simp [hsim], by simp, ?_⟩
          simpa using dictAppend_join_perm pu.repeat_id pu acc.cs
      · simp only [tagSR, tagSS, tagCR, tagCS, hok, hsim, hrun,
          Bool.true_and, Bool.and_true, Bool.and_false, Bool.not_true,
          Bool.false_and, Bool.false_eq_true, if_false, if_true]
        refine ⟨by simp [hsim], by simp [hsim], ?_, by simp⟩
        simpa using dictAppend_join_perm pu.repeat_id pu acc.cr

theorem foldl_gather_perm (l : List PUR) (acc : GatherAcc) :
    (accJoin ((l.foldl gatherStep acc).sr)).Perm
      (l.filter tagSR ++ accJoin acc.sr) ∧
    (accJoin ((l.foldl gatherStep acc).ss)).Perm
      (l.filter tagSS ++ accJoin acc.ss) ∧
    (accJoin ((l.foldl gatherStep acc).cr)).Perm
      (l.filter tagCR ++ accJoin acc.cr) ∧
    (accJoin ((l.foldl gatherStep acc).cs)).Perm
      (l.filter tagCS ++ accJoin acc.cs) := by
  induction l generalizing acc with
  | nil => simp
  | cons pu rest ih =>
    obtain ⟨ihsr, ihss, ihcr, ihcs⟩ := ih (gatherStep acc pu)
    obtain ⟨ssr, sss, scr, scs⟩ := gatherStep_perm acc pu
    simp only [List.foldl_cons, List.filter_cons]
    refine ⟨?_, ?_, ?_, ?_⟩
    · refine (ihsr.trans (ssr.append_left _)).trans ?_
      cases htag : tagSR pu
      · simp
      · simp only [if_pos rfl, List.singleton_append]
        exact List.perm_middle
    · refine (ihss.trans (sss.append_left _)).trans ?_
      cases htag : tagSS pu
      · simp
      · simp only [if_pos rfl, List.singleton_append]
        exact List.perm_middle
    · refine (ihcr.trans (scr.append_left _)).trans ?_
      cases htag : tagCR pu
      · simp
      · simp only [if_pos rfl, List.singleton_append]
        exact List.perm_middle
    · refine (ihcs.trans (scs.append_left _)).trans ?_
      cases htag : tagCS pu
      · simp
      · simp only [if_pos rfl, List.singleton_append]
        exact List.perm_middle

theorem insertByGen_perm (a : PUR) (l : List PUR) :
    (insertByGen a l).Perm (a :: l) := by
  induction l with
  | nil => rfl
  | cons q rest ih =>
    simp only [insertByGen]
    split_ifs
    · rfl
    · exact (ih.cons q).trans (List.Perm.swap a q rest)

theorem sortByGen_perm (l : List PUR) : (sortByGen l).Perm l := by
  induction l with
  | nil => rfl
  | cons a rest ih =>
    exact (insertByGen_perm a (sortByGen rest)).trans (ih.cons a)

theorem insertByGen_sorted (a : PUR) (l : List PUR)
    (h : l.Pairwise (fun x y => x.generation ≤ y.generation)) :
    (insertByGen a l).Pairwise (fun x y => x.generation ≤ y.generation) := by
  induction l with
  | nil => simp [insertByGen]
  | cons q rest ih =>
    obtain ⟨hq, hrest⟩ := List.pairwise_cons.mp h
    simp only [insertByGen]
    split_ifs with hlt
    · exact List.pairwise_cons.mpr
        ⟨fun y hy => by
          rcases List.mem_cons.mp hy with rfl | hy
          · omega
          · exact le_trans (le_of_lt hlt) (hq y hy),
         h⟩
    · refine List.pairwise_cons.mpr ⟨fun y hy => ?_, ih hrest⟩
      rcases List.mem_cons.mp ((insertByGen_perm a rest).mem_iff.mp hy)
        with rfl | hy
      · omega
      · exact hq y hy

theorem sortByGen_sorted (l : List PUR) :
    (sortByGen l).Pairwise (fun x y => x.generation ≤ y.generation) := by
  induction l with
  | nil => simp [sortByGen]
  | cons a rest ih => exact insertByGen_sorted a (sortByGen rest) ih

/-- Every stored result's repeat id matches its group key. -/
def keyInv (b : List (ℕ × List PUR)) : Prop :=
  ∀ g ∈ b, ∀ x ∈ g.2, x.repeat_id = g.1

theorem dictAppend_keyInv (k : ℕ) (pu : PUR) (b : List (ℕ × List PUR))
    (hb : keyInv b) (hpu : pu.repeat_id = k) :
    keyInv (dictAppend k pu b) := by
  induction b with
  | nil =>
    intro g hg x hx
    simp only [dictAppend, List.mem_singleton] at hg
    subst hg
    simp only [List.mem_singleton] at hx
    subst hx
    exact hpu
  | cons g0 rest ih =>
    obtain ⟨k2, l⟩ := g0
    have hb0 := hb (k2, l) (List.mem_cons_self _ _)
    have hbrest : keyInv rest := fun g hg => hb g (List.mem_cons_of_mem _ hg)
    intro g hg x hx
    simp only [dictAppend] at hg
    split_ifs at hg with hk
    · rcases List.mem_cons.mp hg with rfl | hg
      · rcases List.mem_append.mp hx with hx | hx
        · exact hb0 x hx
        · simp only [List.mem_singleton] at hx
          subst hx
          omega
      · exact hbrest g hg x hx
    · rcases List.mem_cons.mp hg with rfl | hg
      · exact hb0 x hx
      · exact ih hbrest g hg x hx

theorem gatherStep_keyInv (acc : GatherAcc) (pu : PUR)
    (h1 : keyInv acc.sr) (h2 : keyInv acc.ss) (h3 : keyInv acc.cr)
    (h4 : keyInv acc.cs) :
    keyInv (gatherStep acc pu).sr ∧ keyInv (gatherStep acc pu).ss ∧
    keyInv (gatherStep acc pu).cr ∧ keyInv (gatherStep acc pu).cs := by
  unfold gatherStep
  split_ifs <;>
    exact ⟨by first
        | exact h1
        | exact dictAppend_keyInv _ _ _ h1 rfl,
      by first
        | exact h2
        | exact dictAppend_keyInv _ _ _ h2 rfl,
      by first
        | exact h3
        | exact dictAppend_keyInv _ _ _ h3 rfl,
      by first
        | exact h4
        | exact dictAppend_keyInv _ _ _ h4 rfl⟩

theorem foldl_gather_keyInv (l : List PUR) (acc : GatherAcc)
    (h1 : keyInv acc.sr) (h2 : keyInv acc.ss) (h3 : keyInv acc.cr)
    (h4 : keyInv acc.cs) :
    keyInv ((l.foldl gatherStep acc).sr) ∧
    keyInv ((l.foldl gatherStep acc).ss) ∧
    keyInv ((l.foldl gatherStep acc).cr) ∧
    keyInv ((l.foldl gatherStep acc).cs) := by
  induction l generalizing acc with
  | nil => exact ⟨h1, h2, h3, h4⟩
  | cons pu rest ih =>
    obtain ⟨k1, k2, k3, k4⟩ := gatherStep_keyInv acc pu h1 h2 h3 h4
    exact ih (gatherStep acc pu) k1 k2 k3 k4

theorem bucketJoin_sort_perm (b : List (ℕ × List PUR)) :
    (bucketJoin (b.map (fun g => (toString g.1, sortByGen g.2)))).Perm
      (accJoin b) := by
  induction b with
  | nil => rfl
  | cons g rest ih =>
    simp only [bucketJoin, accJoin, List.map_cons, List.flatten_cons] at *
    exact (sortByGen_perm g.2).append ih

/-- **C8.** `_gather` partitions the unit results into the four buckets
by the declared `simtype` tag and the `"Run"`/`"Setup"` name tag: a unit
appears in a bucket exactly when it occurs in the input, succeeded, and
carries that bucket's tags (so no failed unit appears anywhere and no
successful, correctly-tagged unit is lost); within every bucket each
group is keyed by its members' repeat id and sorted by generation
ascending. -/
theorem C8_gather_partition (ds : List (List PUR)) :
    (∀ pu : PUR,
      (pu ∈ bucketJoin (septopGather ds).solvent ↔
        pu ∈ ds.flatten ∧ pu.ok = true ∧ pu.simtype = "solvent" ∧
          strHasSub pu.name "Run" = true) ∧
      (pu ∈ bucketJoin (septopGather ds).solvent_setup ↔
        pu ∈ ds.flatten ∧ pu.ok = true ∧ pu.simtype = "solvent" ∧
          strHasSub pu.name "Run" = false ∧
          strHasSub pu.name "Setup" = true) ∧
      (pu ∈ bucketJoin (septopGather ds).complex ↔
        pu ∈ ds.flatten ∧ pu.ok = true ∧ pu.simtype ≠ "solvent" ∧
          strHasSub pu.name "Run" = true) ∧
      (pu ∈ bucketJoin (septopGather ds).complex_setup ↔
        pu ∈ ds.flatten ∧ pu.ok = true ∧ pu.simtype ≠ "solvent" ∧
          strHasSub pu.name "Run" = false ∧
          strHasSub pu.name "Setup" = true) ∧
      (pu.ok = false →
        pu ∉ bucketJoin (septopGather ds).solvent ∧
        pu ∉ bucketJoin (septopGather ds).solvent_setup ∧
        pu ∉ bucketJoin (septopGather ds).complex ∧
        pu ∉ bucketJoin (septopGather ds).complex_setup)) ∧
    (∀ b ∈ [(septopGather ds).solvent_setup, (septopGather ds).solvent,
        (septopGather ds).complex_setup, (septopGather ds).complex],
      ∀ g ∈ b, (∀ x ∈ g.2, toString x.repeat_id = g.1) ∧
        g.2.Pairwise (fun x y => x.generation ≤ y.generation)) := by
  obtain ⟨psr, pss, pcr, pcs⟩ :=
    foldl_gather_perm ds.flatten ⟨[], [], [], []⟩
  have hsr : (septopGather ds).solvent =
      (ds.flatten.foldl gatherStep ⟨[], [], [], []⟩).sr.map
        (fun g => (toString g.1, sortByGen g.2)) := rfl
  have hss : (septopGather ds).solvent_setup =
      (ds.flatten.foldl gatherStep ⟨[], [], [], []⟩).ss.map
        (fun g => (toString g.1, sortByGen g.2)) := rfl
  have hcr : (septopGather ds).complex =
      (ds.flatten.foldl gatherStep ⟨[], [], [], []⟩).cr.map
        (fun g => (toString g.1, sortByGen g.2)) := rfl
  have hcs : (septopGather ds).complex_setup =
      (ds.flatten.foldl gatherStep ⟨[], [], [], []⟩).cs.map
        (fun g => (toString g.1, sortByGen g.2)) := rfl
  have msr : ∀ pu : PUR, pu ∈ bucketJoin (septopGather ds).solvent ↔
      pu ∈ ds.flatten ∧ tagSR pu = true := by
    intro pu
    rw [hsr, (bucketJoin_sort_perm _).mem_iff, psr.mem_iff]
    simp only [accJoin, List.map_nil, List.flatten_nil,
      List.append_nil, List.mem_filter]
  have mss : ∀ pu : PUR, pu ∈ bucketJoin (septopGather ds).solvent_setup ↔
      pu ∈ ds.flatten ∧ tagSS pu = true := by
    intro pu
    rw [hss, (bucketJoin_sort_perm _).mem_iff, pss.mem_iff]
    simp only [accJoin, List.map_nil, List.flatten_nil,
      List.append_nil, List.mem_filter]
  have mcr : ∀ pu : PUR, pu ∈ bucketJoin (septopGather ds).complex ↔
      pu ∈ ds.flatten ∧ tagCR pu = true := by
    intro pu
    rw [hcr, (bucketJoin_sort_perm _).mem_iff, pcr.mem_iff]
    simp only [accJoin, List.map_nil, List.flatten_nil,
      List.append_nil, List.mem_filter]
  have mcs : ∀ pu : PUR, pu ∈ bucketJoin (septopGather ds).complex_setup ↔
      pu ∈ ds.flatten ∧ tagCS pu = true := by
    intro pu
    rw [hcs, (bucketJoin_sort_perm _).mem_iff, pcs.mem_iff]
    simp only [accJoin, List.map_nil, List.flatten_nil,
      List.append_nil, List.mem_filter]
  constructor
  · intro pu
    refine ⟨?_, ?_, ?_, ?_, ?_⟩
    · rw [msr pu]
      simp only [tagSR, Bool.and_eq_true, beq_iff_eq]
      tauto
    · rw [mss pu]
      simp only [tagSS, Bool.and_eq_true, beq_iff_eq, Bool.not_eq_true']
      tauto
    · rw [mcr pu]
      simp only [tagCR, Bool.and_eq_true, Bool.not_eq_true',
        beq_eq_false_iff_ne, ne_eq]
      tauto
    · rw [mcs pu]
      simp only [tagCS, Bool.and_eq_true, Bool.not_eq_true',
        beq_eq_false_iff_ne, ne_eq]
      tauto
    · intro hfail
      refine ⟨?_, ?_, ?_, ?_⟩
      · rw [msr pu]
        rintro ⟨-, htag⟩
        simp [tagSR, hfail] at htag
      · rw [mss pu]
        rintro ⟨-, htag⟩
        simp [tagSS, hfail] at htag
      · rw [mcr pu]
        rintro ⟨-, htag⟩
        simp [tagCR, hfail] at htag
      · rw [mcs pu]
        rintro ⟨-, htag⟩
        simp [tagCS, hfail] at htag
  · obtain ⟨k1, k2, k3, k4⟩ := foldl_gather_keyInv ds.flatten
      ⟨[], [], [], []⟩ (fun g hg => absurd hg (List.not_mem_nil g))
      (fun g hg => absurd hg (List.not_mem_nil g))
      (fun g hg => absurd hg (List.not_mem_nil g))
      (fun g hg => absurd hg (List.not_mem_nil g))
    intro b hb g hg
    have hone : ∀ (acc : List (ℕ × List PUR)), keyInv acc →
        g ∈ acc.map (fun g0 => (toString g0.1, sortByGen g0.2)) →
        (∀ x ∈ g.2, toString x.repeat_id = g.1) ∧
        g.2.Pairwise (fun x y => x.generation ≤ y.generation) := by
      intro acc hk hmem
      obtain ⟨g0, hg0, rfl⟩ := List.mem_map.mp hmem
      refine ⟨?_, sortByGen_sorted g0.2⟩
      intro x hx
      have hx0 : x ∈ g0.2 := (sortByGen_perm g0.2).mem_iff.mp hx
      exact congrArg toString (hk g0 hg0 x hx0)
    simp only [List.mem_cons, List.not_mem_nil, or_false] at hb
    rcases hb with hb | hb | hb | hb
    · exact hone _ k2 (by rw [← hss, ← hb]; exact hg)
    · exact hone _ k1 (by rw [← hsr, ← hb]; exact hg)
    · exact hone _ k4 (by rw [← hcs, ← hb]; exact hg)
    · exact hone _ k3 (by rw [← hcr, ← hb]; exact hg)

/-- A failed unit result. -/
def purFailed : PUR :=
  { ok := false,
    name := "SepTop RBFE Run, transformation benzene to toluene, "
      ++ "solvent leg: repeat 2 generation 0",
    simtype := "solvent", repeat_id := 13, generation := 0,
    unit_estimate := ⟨2, u1⟩, unit_estimate_error := ⟨1, u1⟩,
    forward_and_reverse := some 3 }

/-- A concrete DAG-result list for the gather witness. -/
def dsW : List (List PUR) := [[purSolvRun, purCplxRun, purFailed]]

/-- Witness for C8: in a concrete gather, the successful solvent run
lands in the solvent bucket and the failed unit is excluded. -/
theorem C8_gather_partition_witness :
    purSolvRun ∈ bucketJoin (septopGather dsW).solvent ∧
    purFailed ∉ bucketJoin (septopGather dsW).solvent :=
  ⟨((C8_gather_partition dsW).1 purSolvRun).1.mpr (by decide),
   (((C8_gather_partition dsW).1 purFailed).2.2.2.2 (by decide)).1⟩

/-! ### C5: the solvent-leg ligand-B offset -/

theorem drop_take_eq (l : List V3) :
    ∀ (n a : ℕ), a + n ≤ l.length →
      (l.drop a).take n =
        (List.range' a n).map (fun j => l.getD j ((0, 0, 0) : V3))
  | 0, a, _ => by simp
  | n + 1, a, h => by
    have ha : a < l.length := by omega
    rw [List.range'_succ, List.map_cons,
      List.drop_eq_getElem_cons ha, List.take_succ_cons,
      List.getD_eq_getElem l ((0, 0, 0) : V3) ha,
      drop_take_eq l n (a + 1) (by omega)]

theorem range'_headD (a n : ℕ) (h : 0 < n) :
    (List.range' a n).headD 0 = a := by
  obtain ⟨m, rfl⟩ : ∃ m, n = m + 1 := ⟨n - 1, by omega⟩
  rw [List.range'_succ, List.headD_cons]

theorem range'_getLastD (a n : ℕ) (h : 0 < n) :
    (List.range' a n).getLastD 0 = a + n - 1 := by
  obtain ⟨m, rfl⟩ : ∃ m, n = m + 1 := ⟨n - 1, by omega⟩
  rw [List.range'_1_concat, List.getLastD_concat]
  omega

theorem sliceIncl_eq_atoms (l : List V3) (a n : ℕ) (hn : 0 < n)
    (hlen : a + n ≤ l.length) :
    sliceIncl l a (a + n - 1) = ligandAtoms l (List.range' a n) := by
  unfold sliceIncl ligandAtoms
  rw [show a + n - 1 + 1 - a = n from by omega]
  exact drop_take_eq l n a hlen

theorem addOffsetAt_length (off : V3) (idxB : List ℕ) :
    ∀ (j0 : ℕ) (l : List V3),
      (addOffsetAt off idxB j0 l).length = l.length
  | _, [] => rfl
  | j0, p :: rest => by
    simp [addOffsetAt, addOffsetAt_length off idxB (j0 + 1) rest]

theorem addOffsetAt_getD (off : V3) (idxB : List ℕ) :
    ∀ (l : List V3) (j0 j : ℕ), j < l.length →
      (addOffsetAt off idxB j0 l).getD j ((0, 0, 0) : V3) =
        (if (j0 + j) ∈ idxB then l.getD j ((0, 0, 0) : V3) + off
         else l.getD j ((0, 0, 0) : V3))
  | [], _, j, hj => by simp at hj
  | p :: rest, j0, 0, _ => by simp [addOffsetAt]
  | p :: rest, j0, k + 1, hj => by
    simp only [addOffsetAt, List.getD_cons_succ]
    rw [addOffsetAt_getD off idxB rest (j0 + 1) k (by simpa using hj),
      show j0 + 1 + k = j0 + (k + 1) from by omega]

theorem sum_map_add_const {α : Type} (l : List α) (f : α → ℝ) (c : ℝ) :
    (l.map (fun x => f x + c)).sum = (l.map f).sum + l.length * c := by
  induction l with
  | nil => simp
  | cons a t ih =>
    simp only [List.map_cons, List.sum_cons, ih, List.length_cons]
    push_cast
    ring

theorem centroid_map_add (l : List V3) (v : V3) (h : l ≠ []) :
    centroid (l.map (fun p => p + v)) = centroid l + v := by
  have hn : (l.length : ℝ) ≠ 0 :=
    Nat.cast_ne_zero.mpr (Nat.pos_iff_ne_zero.mp
      (List.length_pos.mpr h))
  unfold centroid
  simp only [List.map_map, Function.comp_def, List.length_map,
    Prod.fst_add, Prod.snd_add]
  refine Prod.ext ?_ (Prod.ext ?_ ?_)
  · simp only [Prod.fst_add]
    rw [sum_map_add_const l (fun p => p.1) v.1, add_div,
      mul_div_cancel_left₀ _ hn]
  · simp only [Prod.snd_add, Prod.fst_add]
    rw [sum_map_add_const l (fun p => p.2.1) v.2.1, add_div,
      mul_div_cancel_left₀ _ hn]
  · simp only [Prod.snd_add]
    rw [sum_map_add_const l (fun p => p.2.2) v.2.2, add_div,
      mul_div_cancel_left₀ _ hn]

theorem atoms_updated (posB : List V3) (idxB : List ℕ) (off : V3)
    (hbound : ∀ j ∈ idxB, j < posB.length) :
    ligandAtoms (addOffsetAt off idxB 0 posB) idxB =
      (ligandAtoms posB idxB).map (fun p => p + off) := by
  unfold ligandAtoms
  rw [List.map_map]
  apply List.map_congr_left
  intro j hj
  simp only [Function.comp_def]
  rw [addOffsetAt_getD off idxB posB 0 j (hbound j hj)]
  simp [hj]

/-- **C5.** The solvent-leg position update translates every ligand-B
atom by one common vector (no rotation), leaves every other atom in
place, and the common vector is chosen so that ligand B's centroid lands
at ligand A's centroid displaced along the first coordinate axis by
`d = 1.5 * (radius_A + radius_B)`, capped at half the shortest box
dimension whenever `1.5 * (radius_A + radius_B)` exceeds that cap (the
radii being the ligands' maximum atom-to-centroid distances).  Stated
for contiguous ligand atom index ranges, as produced by the topology. -/
theorem C5_solvent_update_positions (posA posB : List V3)
    (idxA idxB : List ℕ) (box : V3 × V3 × V3) (a0 b0 nA nB : ℕ)
    (hA : idxA = List.range' a0 nA) (hB : idxB = List.range' b0 nB)
    (hnA : 0 < nA) (hnB : 0 < nB)
    (hlenA : a0 + nA ≤ posA.length) (hlenB : b0 + nB ≤ posB.length) :
    ∃ v : V3,
      (∀ j ∈ idxB,
        (solvent_update_positions posA posB idxA idxB box).getD j
          ((0, 0, 0) : V3) = posB.getD j ((0, 0, 0) : V3) + v) ∧
      (∀ j, j < posB.length → j ∉ idxB →
        (solvent_update_positions posA posB idxA idxB box).getD j
          ((0, 0, 0) : V3) = posB.getD j ((0, 0, 0) : V3)) ∧
      (solvent_update_positions posA posB idxA idxB box).length
        = posB.length ∧
      centroid (ligandAtoms
          (solvent_update_positions posA posB idxA idxB box) idxB) =
        centroid (ligandAtoms posA idxA) +
          ((if 1.5 * (ligandRadius (ligandAtoms posA idxA)
                + ligandRadius (ligandAtoms posB idxB)) > minCell box / 2
            then minCell box / 2
            else 1.5 * (ligandRadius (ligandAtoms posA idxA)
                + ligandRadius (ligandAtoms posB idxB))), 0, 0) := by
  subst hA hB
  have hbound : ∀ j ∈ List.range' b0 nB, j < posB.length := by
    intro j hj
    have := List.mem_range'_1.mp hj
    omega
  have hsliceA : sliceIncl posA ((List.range' a0 nA).headD 0)
      ((List.range' a0 nA).getLastD 0)
      = ligandAtoms posA (List.range' a0 nA) := by
    rw [range'_headD a0 nA hnA, range'_getLastD a0 nA hnA]
    exact sliceIncl_eq_atoms posA a0 nA hnA hlenA
  have hsliceB : sliceIncl posB ((List.range' b0 nB).headD 0)
      ((List.range' b0 nB).getLastD 0)
      = ligandAtoms posB (List.range' b0 nB) := by
    rw [range'_headD b0 nB hnB, range'_getLastD b0 nB hnB]
    exact sliceIncl_eq_atoms posB b0 nB hnB hlenB
  set rA := ligandRadius (ligandAtoms posA (List.range' a0 nA)) with hrA
  set rB := ligandRadius (ligandAtoms posB (List.range' b0 nB)) with hrB
  set dl := if (rA + rB) * 1.5 > minCell box / 2 then minCell box / 2
    else (rA + rB) * 1.5 with hdl
  set cA := centroid (ligandAtoms posA (List.range' a0 nA)) with hcA
  set cB := centroid (ligandAtoms posB (List.range' b0 nB)) with hcB
  set off := cA - cB + ((dl, 0, 0) : V3) with hoff
  have hupd : solvent_update_positions posA posB (List.range' a0 nA)
      (List.range' b0 nB) box = addOffsetAt off (List.range' b0 nB) 0 posB := by
    simp only [solvent_update_positions, hsliceA, hsliceB]
  have hdeq : (if 1.5 * (rA + rB) > minCell box / 2 then minCell box / 2
      else 1.5 * (rA + rB)) = dl := by
    rw [hdl, mul_comm]
  refine ⟨off, ?_, ?_, ?_, ?_⟩
  · intro j hj
    rw [hupd, addOffsetAt_getD off _ posB 0 j (hbound j hj),
      if_pos (by simpa using hj)]
  · intro j hjlen hj
    rw [hupd, addOffsetAt_getD off _ posB 0 j hjlen,
      if_neg (by simpa using hj)]
  · rw [hupd, addOffsetAt_length]
  · rw [hupd, atoms_updated posB _ off hbound,
      centroid_map_add _ off (by
        apply List.ne_nil_of_length_pos
        simp [ligandAtoms, List.length_range']
        omega),
      hdeq]
    rw [hoff]
    abel

/-- The single-point position list used by the C5 witness. -/
def posW : List V3 := [((0, 0, 0) : V3)]

/-- The unit box used by the C5 witness. -/
def boxW : V3 × V3 × V3 := (((1 : ℝ), 0, 0), ((0 : ℝ), 1, 0), ((0 : ℝ), 0, 1))

/-- Witness for C5 at one-atom ligands in a unit box. -/
theorem C5_solvent_update_positions_witness :
    ∃ v : V3,
      (∀ j ∈ [0],
        (solvent_update_positions posW posW [0] [0] boxW).getD j
          ((0, 0, 0) : V3) = posW.getD j ((0, 0, 0) : V3) + v) ∧
      (∀ j, j < posW.length → j ∉ [0] →
        (solvent_update_positions posW posW [0] [0] boxW).getD j
          ((0, 0, 0) : V3) = posW.getD j ((0, 0, 0) : V3)) ∧
      (solvent_update_positions posW posW [0] [0] boxW).length
        = posW.length ∧
      centroid (ligandAtoms
          (solvent_update_positions posW posW [0] [0] boxW) [0]) =
        centroid (ligandAtoms posW [0]) +
          ((if 1.5 * (ligandRadius (ligandAtoms posW [0])
                + ligandRadius (ligandAtoms posW [0])) > minCell boxW / 2
            then minCell boxW / 2
            else 1.5 * (ligandRadius (ligandAtoms posW [0])
                + ligandRadius (ligandAtoms posW [0]))), 0, 0) :=
  C5_solvent_update_positions posW posW [0] [0] boxW 0 0 1 1 rfl rfl
    (by norm_num) (by norm_num) (by norm_num [posW]) (by norm_num [posW])
